import Mathlib

/-
Verification of the approximate record-matching engine of the ecoforecast
backend (`backend/data_processing.py`), shallowly embedded in Lean 4.

Modelling conventions:
* A table (pandas DataFrame) is restricted to its searchable columns, split by
  runtime dtype into numeric columns and text columns, exactly as
  `smart_fuzzy_search` does with `SEARCHABLE_COLUMNS`:
  `numeric_cols_in_query` = the searchable numeric columns present in the
  query, `text_cols_in_query` = the searchable text columns present in the
  query.  Only columns present in the query matter to the algorithm (absent
  columns impose no filter and contribute no score), so a `Table` carries, per
  row, the list of values of the query's numeric columns and of the query's
  text columns, positionally aligned with the query's own value lists.
* A numeric cell is `Option ℚ` (`none` = NaN/missing; machine floats are
  idealised as rationals); a text cell is `Option String`.
* `kinds` records, per numeric column, whether `pd.api.types.is_integer_dtype`
  holds (`true` = integer dtype, `false` = real dtype).
* NaN propagation in the scoring loop (a null query value for a numeric column
  makes `normalized_query`, hence the row's overall score, NaN, and
  `NaN >= threshold` is False in Python) is modelled by `Option`: a `none`
  overall score never qualifies.
* The rapidfuzz scorer `fuzz.WRatio` is third-party library code; it is a
  parameter `tsim` of the search configuration.  Its documented contract
  (scores lie in [0,100]) appears as an explicit hypothesis where needed.
* Python's `list.sort` with `reverse=True` is documented stable and is
  modelled by the stable descending insertion sort `sortDesc`.  The final
  `result_df.sort_values('similarity_score', ascending=False)` runs pandas'
  default `kind='quicksort'`, which is documented non-stable (numpy's
  introsort permutes equal keys once a partition exceeds its 16-element
  insertion-sort cutoff), so it is modelled — like the rapidfuzz scorer — by
  a configuration parameter constrained to its documented contract
  `PandasSortSpec`: any permutation sorted descending by score, required to
  coincide with the stable sort only on inputs of at most 16 rows.
-/

namespace EcoForecast

/-- Pass mode of the multi-pass matcher: the source's `'strict'`, `'relaxed'`,
`'none'` strings. -/
inductive Mode
  | strict
  | relaxed
  | nofilter
deriving DecidableEq, Repr

/-- One table row, restricted to the searchable columns present in the query:
`nums` are the values of the query's numeric searchable columns, `texts` the
values of its text searchable columns, positionally aligned with the query. -/
structure RowData where
  nums : List (Option ℚ)
  texts : List (Option String)
deriving DecidableEq, Repr

/-- The record table: per numeric column an integer-dtype flag, plus the rows
in their original order (a row's position is its DataFrame index). -/
structure Table where
  kinds : List Bool
  rows : List RowData
deriving DecidableEq, Repr

/-- The query row, restricted to the searchable columns it contains:
`qnums` the values for the numeric columns, `qtexts` for the text columns. -/
structure Query where
  qnums : List (Option ℚ)
  qtexts : List (Option String)
deriving DecidableEq, Repr

/-- Stable descending insertion by score: an element is placed before the
first element of strictly smaller score, so equal scores keep their relative
order — the behaviour Python documents for `list.sort` with `reverse=True`. -/
def insertDesc (x : ℕ × ℚ) : List (ℕ × ℚ) → List (ℕ × ℚ)
  | [] => [x]
  | y :: ys => if x.2 < y.2 then y :: insertDesc x ys else x :: y :: ys

/-- Stable descending sort by score. -/
def sortDesc : List (ℕ × ℚ) → List (ℕ × ℚ)
  | [] => []
  | x :: xs => insertDesc x (sortDesc xs)

/-- Anti-stable descending insertion by score: an element is placed after
every element of equal score. -/
def insertDescAnti (x : ℕ × ℚ) : List (ℕ × ℚ) → List (ℕ × ℚ)
  | [] => [x]
  | y :: ys => if x.2 ≤ y.2 then y :: insertDescAnti x ys else x :: y :: ys

/-- Anti-stable descending sort by score: correctly sorted descending, but
each run of equal scores comes out in reversed input order. -/
def sortDescAnti : List (ℕ × ℚ) → List (ℕ × ℚ)
  | [] => []
  | x :: xs => insertDescAnti x (sortDescAnti xs)

/-- What `result_df.sort_values('similarity_score', ascending=False)` with
the default `kind='quicksort'` guarantees, and nothing more: the output is a
permutation of the input, sorted by score descending.  Only when the input
has at most 16 elements does numpy's quicksort run its stable insertion sort
(the `SMALL_QUICKSORT = 15` cutoff partitions arrays of 17 or more), which
together with pandas' double reversal for `ascending=False` preserves the
original order of equal scores, i.e. behaves as the stable `sortDesc`.
Beyond 16 elements the sort is documented non-stable and the order of equal
scores is unspecified, so the embedding quantifies over every conforming
behaviour, as it does for the rapidfuzz scorer. -/
def PandasSortSpec (f : List (ℕ × ℚ) → List (ℕ × ℚ)) : Prop :=
  (∀ l, (f l).Perm l) ∧
  (∀ l, (f l).Pairwise fun a b => b.2 ≤ a.2) ∧
  (∀ l, l.length ≤ 16 → f l = sortDesc l)

/-- Caller-configurable parameters of `smart_fuzzy_search`, with the two
pieces of third-party library behaviour abstracted: the text scorer
(rapidfuzz `fuzz.WRatio`) as `tsim query row`, and the final pandas
`sort_values` as any function satisfying its documented contract
`PandasSortSpec`. -/
structure SearchCfg where
  tsim : String → String → ℚ
  threshold : ℚ
  limit : ℕ
  numericWeight : ℚ
  stringWeight : ℚ
  pdsort : {f : List (ℕ × ℚ) → List (ℕ × ℚ) // PandasSortSpec f}

/-- Arithmetic mean, `np.mean` (all uses are guarded against empty lists by
the source). -/
def mean (l : List ℚ) : ℚ := l.sum / (l.length : ℚ)

/-- Minimum of a list of rationals, `none` on the empty list
(pandas `Series.min` skips nulls; an all-null column yields NaN). -/
def listMin : List ℚ → Option ℚ
  | [] => none
  | x :: xs =>
    match listMin xs with
    | none => some x
    | some m => some (min x m)

/-- Maximum of a list of rationals, `none` on the empty list. -/
def listMax : List ℚ → Option ℚ
  | [] => none
  | x :: xs =>
    match listMax xs with
    | none => some x
    | some m => some (max x m)

/-- The non-null values of numeric column `i` across the whole table
(`df[col]` with nulls skipped, as pandas min/max do). -/
def colVals (rows : List RowData) (i : ℕ) : List ℚ :=
  rows.filterMap fun r => (r.nums.get? i).join

/-- The tolerance-band test of the Candidate Filter, translated from the
`mode == 'strict'` / `'relaxed'` / else branches of `_search_with_mode`
(floats `0.9, 1.1, 0.75, 1.25` idealised as rationals). -/
def inBand (mode : Mode) (isInt : Bool) (q v : ℚ) : Bool :=
  match mode with
  | Mode.strict =>
    if isInt then decide (q - 1 ≤ v ∧ v ≤ q + 1)
    else decide (q * (9/10) ≤ v ∧ v ≤ q * (11/10))
  | Mode.relaxed =>
    if isInt then decide (q - 2 ≤ v ∧ v ≤ q + 2)
    else decide (q * (3/4) ≤ v ∧ v ≤ q * (5/4))
  | Mode.nofilter => true

/-- Per-column mask of the Candidate Filter.  A null query value is skipped
(`if pd.isna(q_val): continue`); in `nofilter` mode the mask is all-True; a
null row value fails the band comparisons (`NaN >= x` is False). -/
def cellPasses (mode : Mode) (isInt : Bool) (qv rv : Option ℚ) : Bool :=
  match qv with
  | none => true
  | some q =>
    match mode with
    | Mode.nofilter => true
    | m =>
      match rv with
      | none => false
      | some v => inBand m isInt q v

/-- Conjunction of the per-column masks (`numeric_mask &= mask`). -/
def rowPassesFilter (mode : Mode) (kinds : List Bool)
    (qnums rnums : List (Option ℚ)) : Bool :=
  (kinds.zip (qnums.zip rnums)).all fun p => cellPasses mode p.1 p.2.1 p.2.2

/-- `filtered_df = df[numeric_mask]`: the rows surviving the Candidate
Filter, paired with their original index. -/
def filterRows (mode : Mode) (t : Table) (q : Query) : List (ℕ × RowData) :=
  t.rows.enum.filter fun p => rowPassesFilter mode t.kinds q.qnums p.2.nums

/-- The per-row list of text similarities: one score per text column where
both the row's and the query's value are non-null
(`if pd.notna(row[col]) and pd.notna(query_row[col])`). -/
def textSims (tsim : String → String → ℚ)
    (qtexts rtexts : List (Option String)) : List ℚ :=
  (qtexts.zip rtexts).filterMap fun p =>
    match p.1, p.2 with
    | some qs, some rs => some (tsim qs rs)
    | _, _ => none

/-- Outcome of one numeric column inside the scoring loop: skipped because
the column has no defined range (`col_max > col_min` fails), NaN because a
null value entered the arithmetic, or a real similarity value. -/
inductive SimRes
  | skip
  | nan
  | val (v : ℚ)
deriving DecidableEq, Repr

/-- Whether a `SimRes` is the NaN outcome. -/
def SimRes.isNan : SimRes → Bool
  | SimRes.nan => true
  | _ => false

/-- The similarity value carried by a `SimRes`, if any. -/
def SimRes.toVal : SimRes → Option ℚ
  | SimRes.val v => some v
  | _ => none

/-- One iteration of the numeric scoring loop for column `i`:
min-max normalise the row's and the query's value against the whole table's
column min/max, similarity `100 * (1 - |norm_row - norm_query|)`; a column
with `col_max > col_min` false contributes nothing; a null query or row value
makes the similarity NaN. -/
def fieldNumSim (rows : List RowData) (i : ℕ) (qv rv : Option ℚ) : SimRes :=
  match listMin (colVals rows i), listMax (colVals rows i) with
  | some mn, some mx =>
    if mn < mx then
      match qv, rv with
      | some q, some v =>
        SimRes.val (100 * (1 - |(v - mn) / (mx - mn) - (q - mn) / (mx - mn)|))
      | _, _ => SimRes.nan
    else SimRes.skip
  | _, _ => SimRes.skip

/-- All numeric-column similarity outcomes for one row. -/
def numSims (rows : List RowData) (qnums rnums : List (Option ℚ)) :
    List SimRes :=
  ((qnums.zip rnums).enum).map fun p => fieldNumSim rows p.1 p.2.1 p.2.2

/-- The row's numeric score: 0 when the mode is `'none'` or no numeric column
is in the query; otherwise the mean of the per-column similarities, 0 if every
column was skipped (`np.mean(ns) if ns else 0`), NaN (`none`) if any column's
similarity is NaN. -/
def numScore (mode : Mode) (rows : List RowData)
    (qnums rnums : List (Option ℚ)) : Option ℚ :=
  if mode = Mode.nofilter ∨ qnums = [] then some 0
  else
    let sims := numSims rows qnums rnums
    if sims.any SimRes.isNan then none
    else
      let vals := sims.filterMap SimRes.toVal
      some (if vals = [] then 0 else mean vals)

/-- The row's overall score
`numeric_weight * numeric_score + string_weight * text_score`; `none` when
the row has no usable text column (`if not text_similarities: continue`) or
when the numeric score is NaN. -/
def rowScore (cfg : SearchCfg) (mode : Mode) (t : Table) (q : Query)
    (r : RowData) : Option ℚ :=
  let tsims := textSims cfg.tsim q.qtexts r.texts
  if tsims = [] then none
  else
    match numScore mode t.rows q.qnums r.nums with
    | none => none
    | some ns => some (cfg.numericWeight * ns + cfg.stringWeight * mean tsims)

/-- The `results` list of `_search_with_mode`: the filtered rows whose overall
score reaches the threshold, as (original index, score) pairs in table
order. -/
def qualifying (cfg : SearchCfg) (mode : Mode) (t : Table) (q : Query) :
    List (ℕ × ℚ) :=
  (filterRows mode t q).filterMap fun p =>
    match rowScore cfg mode t q p.2 with
    | none => none
    | some s => if cfg.threshold ≤ s then some (p.1, s) else none

/-- The Ranker: the stable `results.sort(key=..., reverse=True)`, truncation
to `limit`, then the final `result_df.sort_values('similarity_score',
ascending=False)`, which runs whichever contract-conforming behaviour the
configuration carries (see `PandasSortSpec`). -/
def rankResults (cfg : SearchCfg) (results : List (ℕ × ℚ)) : List (ℕ × ℚ) :=
  cfg.pdsort.1 ((sortDesc results).take cfg.limit)

/-- `_search_with_mode`: `None` when the Candidate Filter leaves nothing or no
row reaches the threshold, otherwise the ranked results of this pass. -/
def searchWithMode (cfg : SearchCfg) (mode : Mode) (t : Table) (q : Query) :
    Option (List (ℕ × ℚ)) :=
  if filterRows mode t q = [] then none
  else if qualifying cfg mode t q = [] then none
  else some (rankResults cfg (qualifying cfg mode t q))

/-- `smart_fuzzy_search`: try `'strict'`, `'relaxed'`, `'none'` in order,
return the first pass that produced results, or an empty result set. -/
def smart_fuzzy_search (cfg : SearchCfg) (t : Table) (q : Query) :
    List (ℕ × ℚ) :=
  match searchWithMode cfg Mode.strict t q with
  | some r => r
  | none =>
    match searchWithMode cfg Mode.relaxed t q with
    | some r => r
    | none =>
      match searchWithMode cfg Mode.nofilter t q with
      | some r => r
      | none => []

/-- The ordering guaranteed for the returned sequence: scores descending,
ties in original table order. -/
def Ranked (a b : ℕ × ℚ) : Prop := b.2 ≤ a.2 ∧ (a.2 = b.2 → a.1 < b.1)

/-- The tolerance band written from the spec's own wording (section 4.1),
to be compared with the implementation's `inBand`. -/
def SpecBand (mode : Mode) (isInt : Bool) (q v : ℚ) : Prop :=
  match mode, isInt with
  | Mode.strict, true => q - 1 ≤ v ∧ v ≤ q + 1
  | Mode.strict, false => q * (9/10) ≤ v ∧ v ≤ q * (11/10)
  | Mode.relaxed, true => q - 2 ≤ v ∧ v ≤ q + 2
  | Mode.relaxed, false => q * (3/4) ≤ v ∧ v ≤ q * (5/4)
  | Mode.nofilter, _ => True

/-- Spec-side per-column survival condition: a non-null query value imposes
its band (no band in `'none'` mode); a null query value imposes nothing. -/
def CellSpec (mode : Mode) (isInt : Bool) (qv rv : Option ℚ) : Prop :=
  ∀ q, qv = some q →
    (mode = Mode.nofilter ∨ ∃ v, rv = some v ∧ SpecBand mode isInt q v)

/-- One record of `time_series.csv`: building id, timestamp, electricity
consumption (timestamps idealised as integers). -/
structure TSRow where
  bldg : ℕ
  stamp : ℤ
  kwh : ℚ
deriving DecidableEq, Repr

/-- Sorted insertion without duplicates, for the ascending distinct keys a
pandas `groupby` produces. -/
def insertStamp (x : ℤ) : List ℤ → List ℤ
  | [] => [x]
  | y :: ys => if x < y then x :: y :: ys else if x = y then y :: ys else y :: insertStamp x ys

/-- The distinct timestamps of a list, in ascending order. -/
def dedupSorted : List ℤ → List ℤ
  | [] => []
  | x :: xs => insertStamp x (dedupSorted xs)

/-- `create_average_consumption_profile`: filter the time series to the
matched building ids and average consumption per timestamp.  The time-series
file is `Option`-valued: `none` models the `FileNotFoundError` branch, which
the source converts to an empty DataFrame. -/
def create_average_consumption_profile (ids : List ℕ)
    (tsFile : Option (List TSRow)) : List (ℤ × ℚ) :=
  match tsFile with
  | none => []
  | some rows =>
    let filtered := rows.filter fun r => r.bldg ∈ ids
    if filtered = [] then []
    else
      (dedupSorted (filtered.map fun r => r.stamp)).map fun t =>
        (t, mean ((filtered.filter fun r => r.stamp = t).map fun r => r.kwh))

/-- `run_full_analysis`.  `charFile` models the characteristics CSV (`none` =
file absent, raising the caught `FileNotFoundError`), carrying the table and
its `bldg_id` column; `tsFile` models the time-series CSV.  The synthetic
continuous-history construction (`create_continuous_profile`) involves only
pandas datetime plumbing irrelevant to every claim, so it is a parameter
`cont`; the source's emptiness check on its result is kept.  The source calls
the matcher with `threshold=60, limit=5`. -/
def run_full_analysis (cfg : SearchCfg)
    (cont : List (ℤ × ℚ) → List (ℕ × ℤ × ℚ))
    (charFile : Option (Table × List ℕ)) (tsFile : Option (List TSRow))
    (q : Query) : Option (List (ℕ × ℤ × ℚ)) :=
  match charFile, tsFile with
  | none, _ => none
  | _, none => none
  | some (df, bldgIds), some ts =>
    let sims := smart_fuzzy_search
      { cfg with threshold := 60, limit := 5 } df q
    if sims = [] then none
    else
      let ids := sims.filterMap fun p => bldgIds.get? p.1
      let avg := create_average_consumption_profile ids (some ts)
      if avg = [] then none
      else
        let contProfile := cont avg
        if contProfile = [] then none else some contProfile

/-! Concrete instances used by witnesses and counterexamples. -/

/-- A constant text scorer: a valid stand-in for `fuzz.WRatio`, whose scores
lie in [0,100]. -/
def tsim100 : String → String → ℚ := fun _ _ => 100

/-- A one-row table with a single text column and no numeric column. -/
def tblOne : Table := { kinds := [], rows := [{ nums := [], texts := [some "a"] }] }

/-- Query matching `tblOne`'s text column. -/
def qOne : Query := { qnums := [], qtexts := [some "a"] }

/-- A row with no numeric column and one text value, matched by `qOne`. -/
def rowOne : RowData := { nums := [], texts := [some "a"] }

/-- Seventeen identical copies of `rowOne`: every row ties at the same
score, and seventeen results exceed numpy's 16-element stable regime. -/
def tbl17 : Table :=
  { kinds := []
    rows := [rowOne,
             rowOne,
             rowOne,
             rowOne,
             rowOne,
             rowOne,
             rowOne,
             rowOne,
             rowOne,
             rowOne,
             rowOne,
             rowOne,
             rowOne,
             rowOne,
             rowOne,
             rowOne,
             rowOne] }

/-- Two-row table with one real-valued numeric column whose values 110 and
111 both exceed the query value 100, putting the normalised query value far
outside [0,1]. -/
def tblNeg : Table :=
  { kinds := [false]
    rows := [{ nums := [some 110], texts := [some "a"] },
             { nums := [some 111], texts := [some "a"] }] }

/-- Query value 100 for the numeric column of `tblNeg`. -/
def qNeg : Query := { qnums := [some 100], qtexts := [some "a"] }

/-- A table whose single row has a null text cell, so no text field overlaps
any query. -/
def tblNull : Table := { kinds := [], rows := [{ nums := [], texts := [none] }] }

/-- One-row table with an integer numeric column of value 4 and a text
column. -/
def row8 : RowData := { nums := [some 4], texts := [some "a"] }

/-- Table holding `row8`. -/
def tbl8 : Table := { kinds := [true], rows := [row8] }

/-- Query with numeric value 3 (so `row8` is at the edge of the strict
integer band [2,4]). -/
def q8 : Query := { qnums := [some 3], qtexts := [some "a"] }

/-- Rows forming a constant numeric column of value 5. -/
def rows7 : List RowData :=
  [{ nums := [some 5], texts := [] }, { nums := [some 5], texts := [] }]

/-- A trivial continuous-profile stage for concrete `run_full_analysis`
instances. -/
def cont9 : List (ℤ × ℚ) → List (ℕ × ℤ × ℚ) :=
  fun l => l.enum.map fun p => (p.1, p.2)

/-- An empty record table: no row can match any query. -/
def tblEmpty : Table := { kinds := [], rows := [] }

/-- An arbitrary concrete time series. -/
def ts9 : List TSRow := [{ bldg := 0, stamp := 0, kwh := 1 }]

/-! Helper lemmas about the stable descending sort. -/

theorem mem_insertDesc {y x : ℕ × ℚ} :
    ∀ {l : List (ℕ × ℚ)}, y ∈ insertDesc x l ↔ y = x ∨ y ∈ l := by
  intro l
  induction l with
  | nil => simp [insertDesc]
  | cons z zs ih =>
    by_cases h : x.2 < z.2
    · simp only [insertDesc, if_pos h, List.mem_cons, ih]
      tauto
    · simp only [insertDesc, if_neg h, List.mem_cons]

theorem mem_sortDesc {y : ℕ × ℚ} :
    ∀ {l : List (ℕ × ℚ)}, y ∈ sortDesc l ↔ y ∈ l := by
  intro l
  induction l with
  | nil => simp [sortDesc]
  | cons x xs ih => simp [sortDesc, mem_insertDesc, ih]

theorem length_insertDesc (x : ℕ × ℚ) :
    ∀ (l : List (ℕ × ℚ)), (insertDesc x l).length = l.length + 1 := by
  intro l
  induction l with
  | nil => rfl
  | cons z zs ih =>
    by_cases h : x.2 < z.2
    · simp [insertDesc, if_pos h, ih]
    · simp [insertDesc, if_neg h]

theorem length_sortDesc :
    ∀ (l : List (ℕ × ℚ)), (sortDesc l).length = l.length := by
  intro l
  induction l with
  | nil => rfl
  | cons x xs ih => simp [sortDesc, length_insertDesc, ih]

theorem pairwise_insertDesc {x : ℕ × ℚ} :
    ∀ {l : List (ℕ × ℚ)}, l.Pairwise Ranked → (∀ y ∈ l, x.1 < y.1) →
      (insertDesc x l).Pairwise Ranked := by
  intro l
  induction l with
  | nil => intro _ _; simp [insertDesc, Ranked]
  | cons y ys ih =>
    intro hp hx
    rcases List.pairwise_cons.1 hp with ⟨hy, hys⟩
    by_cases h : x.2 < y.2
    · simp only [insertDesc, if_pos h]
      refine List.pairwise_cons.2 ⟨?_, ih hys fun z hz => hx z (List.mem_cons_of_mem _ hz)⟩
      intro z hz
      rcases mem_insertDesc.1 hz with rfl | hz2
      · exact ⟨le_of_lt h, fun he => absurd (he ▸ h) (lt_irrefl _)⟩
      · exact hy z hz2
    · simp only [insertDesc, if_neg h]
      push_neg at h
      refine List.pairwise_cons.2 ⟨?_, hp⟩
      intro z hz
      rcases List.mem_cons.1 hz with rfl | hz2
      · exact ⟨h, fun _ => hx z (List.mem_cons_self _ _)⟩
      · exact ⟨le_trans (hy z hz2).1 h, fun _ => hx z (List.mem_cons_of_mem _ hz2)⟩

theorem pairwise_sortDesc {l : List (ℕ × ℚ)}
    (h : l.Pairwise fun a b => a.1 < b.1) : (sortDesc l).Pairwise Ranked := by
  induction l with
  | nil => simp [sortDesc]
  | cons x xs ih =>
    rcases List.pairwise_cons.1 h with ⟨hx, hxs⟩
    simp only [sortDesc]
    exact pairwise_insertDesc (ih hxs) fun y hy => hx y (mem_sortDesc.1 hy)

theorem sortDesc_eq_of_sorted :
    ∀ {l : List (ℕ × ℚ)}, (l.Pairwise fun a b => b.2 ≤ a.2) → sortDesc l = l := by
  intro l
  induction l with
  | nil => intro _; rfl
  | cons x xs ih =>
    intro h
    rcases List.pairwise_cons.1 h with ⟨hx, hxs⟩
    simp only [sortDesc, ih hxs]
    cases xs with
    | nil => rfl
    | cons y ys =>
      have hnot : ¬ x.2 < y.2 := not_lt.2 (hx y (List.mem_cons_self _ _))
      simp only [insertDesc, if_neg hnot]

theorem insertDesc_perm (x : ℕ × ℚ) :
    ∀ (l : List (ℕ × ℚ)), (insertDesc x l).Perm (x :: l) := by
  intro l
  induction l with
  | nil => exact List.Perm.refl _
  | cons y ys ih =>
    by_cases h : x.2 < y.2
    · simp only [insertDesc, if_pos h]
      exact (ih.cons y).trans (List.Perm.swap x y ys)
    · simp only [insertDesc, if_neg h]
      exact List.Perm.refl _

theorem sortDesc_perm : ∀ (l : List (ℕ × ℚ)), (sortDesc l).Perm l := by
  intro l
  induction l with
  | nil => exact List.Perm.refl _
  | cons x xs ih =>
    simp only [sortDesc]
    exact (insertDesc_perm x (sortDesc xs)).trans (ih.cons x)

theorem insertDesc_sorted_weak (x : ℕ × ℚ) :
    ∀ {l : List (ℕ × ℚ)}, (l.Pairwise fun a b => b.2 ≤ a.2) →
      (insertDesc x l).Pairwise fun a b => b.2 ≤ a.2 := by
  intro l
  induction l with
  | nil => intro _; simp [insertDesc]
  | cons y ys ih =>
    intro h
    rcases List.pairwise_cons.1 h with ⟨hy, hys⟩
    by_cases hxy : x.2 < y.2
    · simp only [insertDesc, if_pos hxy]
      refine List.pairwise_cons.2 ⟨?_, ih hys⟩
      intro z hz
      rcases mem_insertDesc.1 hz with rfl | hz2
      · exact le_of_lt hxy
      · exact hy z hz2
    · simp only [insertDesc, if_neg hxy]
      push_neg at hxy
      refine List.pairwise_cons.2 ⟨?_, h⟩
      intro z hz
      rcases List.mem_cons.1 hz with rfl | hz2
      · exact hxy
      · exact le_trans (hy z hz2) hxy

theorem sortDesc_sorted_weak :
    ∀ (l : List (ℕ × ℚ)), (sortDesc l).Pairwise fun a b => b.2 ≤ a.2 := by
  intro l
  induction l with
  | nil => simp [sortDesc]
  | cons x xs ih =>
    simp only [sortDesc]
    exact insertDesc_sorted_weak x ih

theorem mem_insertDescAnti {y x : ℕ × ℚ} :
    ∀ {l : List (ℕ × ℚ)}, y ∈ insertDescAnti x l ↔ y = x ∨ y ∈ l := by
  intro l
  induction l with
  | nil => simp [insertDescAnti]
  | cons z zs ih =>
    by_cases h : x.2 ≤ z.2
    · simp only [insertDescAnti, if_pos h, List.mem_cons, ih]
      tauto
    · simp only [insertDescAnti, if_neg h, List.mem_cons]

theorem insertDescAnti_perm (x : ℕ × ℚ) :
    ∀ (l : List (ℕ × ℚ)), (insertDescAnti x l).Perm (x :: l) := by
  intro l
  induction l with
  | nil => exact List.Perm.refl _
  | cons y ys ih =>
    by_cases h : x.2 ≤ y.2
    · simp only [insertDescAnti, if_pos h]
      exact (ih.cons y).trans (List.Perm.swap x y ys)
    · simp only [insertDescAnti, if_neg h]
      exact List.Perm.refl _

theorem sortDescAnti_perm : ∀ (l : List (ℕ × ℚ)), (sortDescAnti l).Perm l := by
  intro l
  induction l with
  | nil => exact List.Perm.refl _
  | cons x xs ih =>
    simp only [sortDescAnti]
    exact (insertDescAnti_perm x (sortDescAnti xs)).trans (ih.cons x)

theorem insertDescAnti_sorted_weak (x : ℕ × ℚ) :
    ∀ {l : List (ℕ × ℚ)}, (l.Pairwise fun a b => b.2 ≤ a.2) →
      (insertDescAnti x l).Pairwise fun a b => b.2 ≤ a.2 := by
  intro l
  induction l with
  | nil => intro _; simp [insertDescAnti]
  | cons y ys ih =>
    intro h
    rcases List.pairwise_cons.1 h with ⟨hy, hys⟩
    by_cases hxy : x.2 ≤ y.2
    · simp only [insertDescAnti, if_pos hxy]
      refine List.pairwise_cons.2 ⟨?_, ih hys⟩
      intro z hz
      rcases mem_insertDescAnti.1 hz with rfl | hz2
      · exact hxy
      · exact hy z hz2
    · simp only [insertDescAnti, if_neg hxy]
      push_neg at hxy
      refine List.pairwise_cons.2 ⟨?_, h⟩
      intro z hz
      rcases List.mem_cons.1 hz with rfl | hz2
      · exact le_of_lt hxy
      · exact le_trans (hy z hz2) (le_of_lt hxy)

theorem sortDescAnti_sorted_weak :
    ∀ (l : List (ℕ × ℚ)), (sortDescAnti l).Pairwise fun a b => b.2 ≤ a.2 := by
  intro l
  induction l with
  | nil => simp [sortDescAnti]
  | cons x xs ih =>
    simp only [sortDescAnti]
    exact insertDescAnti_sorted_weak x ih

/-- The fully stable realisation of the pandas sort contract: what numpy
does below its insertion-sort cutoff, extended to every size. -/
def pdStable : {f : List (ℕ × ℚ) → List (ℕ × ℚ) // PandasSortSpec f} :=
  ⟨sortDesc, sortDesc_perm, sortDesc_sorted_weak, fun _ _ => rfl⟩

/-- A realisation of the pandas sort contract that, like numpy quicksort,
stops preserving tie order beyond the 16-element insertion-sort regime:
above that size each run of equal scores comes out reversed. -/
def pdShuffle : {f : List (ℕ × ℚ) → List (ℕ × ℚ) // PandasSortSpec f} :=
  ⟨fun l => if l.length ≤ 16 then sortDesc l else sortDescAnti l, by
    refine ⟨?_, ?_, ?_⟩
    · intro l
      by_cases h : l.length ≤ 16
      · simpa [h] using sortDesc_perm l
      · simpa [h] using sortDescAnti_perm l
    · intro l
      by_cases h : l.length ≤ 16
      · simpa [h] using sortDesc_sorted_weak l
      · simpa [h] using sortDescAnti_sorted_weak l
    · intro l h
      simp [h]⟩

/-- Defaults of `smart_fuzzy_search` (stable-regime sort) but with threshold
0, so that a text-only match (score 30) qualifies. -/
def cfg30 : SearchCfg :=
  { tsim := tsim100, threshold := 0, limit := 10
    numericWeight := 7/10, stringWeight := 3/10, pdsort := pdStable }

/-- A string weight above 1: the claim under test quantifies over all
weights. -/
def cfgHeavy : SearchCfg :=
  { tsim := tsim100, threshold := 0, limit := 10
    numericWeight := 7/10, stringWeight := 2, pdsort := pdStable }

/-- Default weights but a negative threshold: the claim under test
quantifies over all thresholds. -/
def cfgNeg : SearchCfg :=
  { tsim := tsim100, threshold := -100000, limit := 10
    numericWeight := 7/10, stringWeight := 3/10, pdsort := pdStable }

/-- Limit 17 with the tie-permuting conforming sort: the smallest regime in
which the final quicksort stops being stable. -/
def cfgShuffle : SearchCfg :=
  { tsim := tsim100, threshold := 0, limit := 17
    numericWeight := 7/10, stringWeight := 3/10, pdsort := pdShuffle }

theorem rankResults_sorted (cfg : SearchCfg) (l : List (ℕ × ℚ)) :
    (rankResults cfg l).Pairwise fun a b => b.2 ≤ a.2 :=
  cfg.pdsort.2.2.1 _

theorem rankResults_length_le {cfg : SearchCfg} {l : List (ℕ × ℚ)} :
    (rankResults cfg l).length ≤ cfg.limit := by
  have hp := (cfg.pdsort.2.1 ((sortDesc l).take cfg.limit)).length_eq
  rw [rankResults, hp, List.length_take]
  exact min_le_left _ _

theorem mem_rankResults {cfg : SearchCfg} {l : List (ℕ × ℚ)} {x : ℕ × ℚ}
    (h : x ∈ rankResults cfg l) : x ∈ l :=
  mem_sortDesc.1 (List.take_subset _ _
    ((cfg.pdsort.2.1 ((sortDesc l).take cfg.limit)).mem_iff.1 h))

theorem rankResults_stable_small {cfg : SearchCfg} {l : List (ℕ × ℚ)}
    (hlen : (rankResults cfg l).length ≤ 16)
    (hidx : l.Pairwise fun a b => a.1 < b.1) :
    (rankResults cfg l).Pairwise Ranked := by
  have hperm := cfg.pdsort.2.1 ((sortDesc l).take cfg.limit)
  have hin : ((sortDesc l).take cfg.limit).length ≤ 16 := by
    rw [← hperm.length_eq]
    exact hlen
  have hr : ((sortDesc l).take cfg.limit).Pairwise Ranked :=
    List.Pairwise.sublist (List.take_sublist _ _) (pairwise_sortDesc hidx)
  rw [rankResults, cfg.pdsort.2.2.2 _ hin,
    sortDesc_eq_of_sorted (hr.imp fun hab => hab.1)]
  exact hr

/-! Helper lemmas about the Candidate Filter and the qualifying set. -/

theorem le_fst_of_mem_enumFrom {α : Type} :
    ∀ {l : List α} {m : ℕ} {p : ℕ × α}, p ∈ List.enumFrom m l → m ≤ p.1 := by
  intro l
  induction l with
  | nil => intro m p h; simp at h
  | cons x xs ih =>
    intro m p h
    rcases List.mem_cons.1 h with rfl | h2
    · exact le_refl _
    · exact le_trans (Nat.le_succ m) (ih h2)

theorem pairwise_fst_enumFrom {α : Type} :
    ∀ (l : List α) (m : ℕ), (List.enumFrom m l).Pairwise fun a b => a.1 < b.1 := by
  intro l
  induction l with
  | nil => intro m; simp
  | cons x xs ih =>
    intro m
    refine List.pairwise_cons.2 ⟨?_, ih (m + 1)⟩
    intro p hp
    exact lt_of_lt_of_le (Nat.lt_succ_self m) (le_fst_of_mem_enumFrom hp)

theorem pairwise_fst_filterRows (mode : Mode) (t : Table) (q : Query) :
    (filterRows mode t q).Pairwise fun a b => a.1 < b.1 :=
  List.Pairwise.filter _ (pairwise_fst_enumFrom t.rows 0)

theorem mem_filterRows {mode : Mode} {t : Table} {q : Query} {p : ℕ × RowData} :
    p ∈ filterRows mode t q ↔
      t.rows[p.1]? = some p.2 ∧
        rowPassesFilter mode t.kinds q.qnums p.2.nums = true := by
  rw [filterRows, List.mem_filter, List.mem_enum_iff_getElem?]

theorem qualFun_eq_some {cfg : SearchCfg} {mode : Mode} {t : Table} {q : Query}
    {p : ℕ × RowData} {x : ℕ × ℚ}
    (h : (match rowScore cfg mode t q p.2 with
          | none => none
          | some s => if cfg.threshold ≤ s then some (p.1, s) else none) = some x) :
    x.1 = p.1 ∧ rowScore cfg mode t q p.2 = some x.2 ∧ cfg.threshold ≤ x.2 := by
  cases hr : rowScore cfg mode t q p.2 with
  | none => rw [hr] at h; exact absurd h (by simp)
  | some s =>
    rw [hr] at h
    have h2 : (if cfg.threshold ≤ s then some (p.1, s) else none) = some x := h
    by_cases hts : cfg.threshold ≤ s
    · rw [if_pos hts] at h2
      obtain rfl : (p.1, s) = x := Option.some_inj.1 h2
      exact ⟨rfl, rfl, hts⟩
    · rw [if_neg hts] at h2
      exact absurd h2 (by simp)

theorem mem_qualifying {cfg : SearchCfg} {mode : Mode} {t : Table} {q : Query}
    {x : ℕ × ℚ} :
    x ∈ qualifying cfg mode t q ↔
      ∃ r : RowData, (x.1, r) ∈ filterRows mode t q ∧
        rowScore cfg mode t q r = some x.2 ∧ cfg.threshold ≤ x.2 := by
  rw [qualifying, List.mem_filterMap]
  constructor
  · rintro ⟨p, hp, hx⟩
    rcases qualFun_eq_some hx with ⟨h1, h2, h3⟩
    exact ⟨p.2, by rwa [h1, Prod.mk.eta], h2, h3⟩
  · rintro ⟨r, hr, hs, hts⟩
    exact ⟨(x.1, r), hr, by simp [hs, if_pos hts]⟩

theorem pairwise_fst_qualifying (cfg : SearchCfg) (mode : Mode) (t : Table)
    (q : Query) : (qualifying cfg mode t q).Pairwise fun a b => a.1 < b.1 := by
  rw [qualifying, List.pairwise_filterMap]
  refine (pairwise_fst_filterRows mode t q).imp ?_
  intro a b hab x hx y hy
  rw [(qualFun_eq_some hx).1, (qualFun_eq_some hy).1]
  exact hab

theorem searchWithMode_eq_none {cfg : SearchCfg} {mode : Mode} {t : Table}
    {q : Query} :
    searchWithMode cfg mode t q = none ↔
      filterRows mode t q = [] ∨ qualifying cfg mode t q = [] := by
  rw [searchWithMode]
  by_cases h1 : filterRows mode t q = []
  · simp [h1]
  · by_cases h2 : qualifying cfg mode t q = []
    · simp [h1, h2]
    · simp [h1, h2]

theorem searchWithMode_eq_some {cfg : SearchCfg} {mode : Mode} {t : Table}
    {q : Query} {r : List (ℕ × ℚ)} (h : searchWithMode cfg mode t q = some r) :
    r = rankResults cfg (qualifying cfg mode t q) := by
  rw [searchWithMode] at h
  by_cases h1 : filterRows mode t q = []
  · rw [if_pos h1] at h; exact absurd h (by simp)
  · rw [if_neg h1] at h
    by_cases h2 : qualifying cfg mode t q = []
    · rw [if_pos h2] at h; exact absurd h (by simp)
    · rw [if_neg h2] at h
      exact (Option.some_inj.1 h).symm

theorem smart_fuzzy_search_cases (cfg : SearchCfg) (t : Table) (q : Query) :
    smart_fuzzy_search cfg t q = [] ∨
      ∃ mode : Mode, smart_fuzzy_search cfg t q =
        rankResults cfg (qualifying cfg mode t q) := by
  rw [smart_fuzzy_search]
  cases h1 : searchWithMode cfg Mode.strict t q with
  | some r => exact Or.inr ⟨Mode.strict, searchWithMode_eq_some h1⟩
  | none =>
    cases h2 : searchWithMode cfg Mode.relaxed t q with
    | some r => exact Or.inr ⟨Mode.relaxed, searchWithMode_eq_some h2⟩
    | none =>
      cases h3 : searchWithMode cfg Mode.nofilter t q with
      | some r => exact Or.inr ⟨Mode.nofilter, searchWithMode_eq_some h3⟩
      | none => exact Or.inl rfl

theorem mem_smart_fuzzy_search {cfg : SearchCfg} {t : Table} {q : Query}
    {x : ℕ × ℚ} (h : x ∈ smart_fuzzy_search cfg t q) :
    ∃ (mode : Mode) (r : RowData), (x.1, r) ∈ filterRows mode t q ∧
      rowScore cfg mode t q r = some x.2 ∧ cfg.threshold ≤ x.2 := by
  rcases smart_fuzzy_search_cases cfg t q with he | ⟨mode, hm⟩
  · rw [he] at h; exact absurd h (List.not_mem_nil x)
  · rw [hm] at h
    rcases mem_qualifying.1 (mem_rankResults h) with ⟨r, hr, hs, hts⟩
    exact ⟨mode, r, hr, hs, hts⟩

/-! Helper lemmas about tolerance bands. -/

theorem inBand_iff_SpecBand (mode : Mode) (isInt : Bool) (q v : ℚ) :
    inBand mode isInt q v = true ↔ SpecBand mode isInt q v := by
  cases mode <;> cases isInt <;> simp [inBand, SpecBand]

theorem cellPasses_iff_CellSpec (mode : Mode) (isInt : Bool)
    (qv rv : Option ℚ) :
    cellPasses mode isInt qv rv = true ↔ CellSpec mode isInt qv rv := by
  cases qv <;> cases mode <;> cases rv <;>
    simp [cellPasses, CellSpec, inBand_iff_SpecBand]

theorem SpecBand_strict_relaxed {isInt : Bool} {q v : ℚ}
    (h : SpecBand Mode.strict isInt q v) : SpecBand Mode.relaxed isInt q v := by
  cases isInt <;> simp [SpecBand] at h ⊢
  · exact ⟨by linarith [h.1, h.2], by linarith [h.1, h.2]⟩
  · exact ⟨by linarith [h.1], by linarith [h.2]⟩

theorem cellPasses_nofilter (isInt : Bool) (qv rv : Option ℚ) :
    cellPasses Mode.nofilter isInt qv rv = true := by
  cases qv <;> simp [cellPasses]

theorem cellPasses_mono_sr (isInt : Bool) (qv rv : Option ℚ)
    (h : cellPasses Mode.strict isInt qv rv = true) :
    cellPasses Mode.relaxed isInt qv rv = true := by
  cases qv with
  | none => simp [cellPasses]
  | some q =>
    cases rv with
    | none => simp [cellPasses] at h
    | some v =>
      have hb : inBand Mode.strict isInt q v = true := h
      have hs := (inBand_iff_SpecBand Mode.strict isInt q v).1 hb
      have hr := (inBand_iff_SpecBand Mode.relaxed isInt q v).2
        (SpecBand_strict_relaxed hs)
      simpa [cellPasses] using hr

theorem rowPassesFilter_mono_sr {kinds : List Bool}
    {qnums rnums : List (Option ℚ)}
    (h : rowPassesFilter Mode.strict kinds qnums rnums = true) :
    rowPassesFilter Mode.relaxed kinds qnums rnums = true := by
  rw [rowPassesFilter, List.all_eq_true] at h ⊢
  exact fun p hp => cellPasses_mono_sr _ _ _ (h p hp)

theorem rowPassesFilter_nofilter (kinds : List Bool)
    (qnums rnums : List (Option ℚ)) :
    rowPassesFilter Mode.nofilter kinds qnums rnums = true := by
  rw [rowPassesFilter, List.all_eq_true]
  exact fun p _ => cellPasses_nofilter _ _ _

/-! Helper lemmas bounding the scores. -/

theorem mean_nonneg {l : List ℚ} (h : ∀ x ∈ l, 0 ≤ x) : 0 ≤ mean l :=
  div_nonneg (List.sum_nonneg h) (Nat.cast_nonneg _)

theorem mean_le {l : List ℚ} {c : ℚ} (hc : 0 ≤ c) (h : ∀ x ∈ l, x ≤ c) :
    mean l ≤ c := by
  cases l with
  | nil => simpa [mean] using hc
  | cons x xs =>
    have hlen : (0:ℚ) < ((x :: xs).length : ℚ) := by
      exact_mod_cast Nat.succ_pos xs.length
    have hsum : (x :: xs).sum ≤ ((x :: xs).length : ℚ) * c := by
      have := List.sum_le_card_nsmul (x :: xs) c h
      simpa [nsmul_eq_mul] using this
    rw [mean, div_le_iff₀ hlen]
    linarith

theorem hundred_one_sub_abs_le (d : ℚ) : 100 * (1 - |d|) ≤ 100 := by
  nlinarith [abs_nonneg d]

theorem fieldNumSim_val_le {rows : List RowData} {i : ℕ} {qv rv : Option ℚ}
    {v : ℚ} (h : fieldNumSim rows i qv rv = SimRes.val v) : v ≤ 100 := by
  unfold fieldNumSim at h
  split at h
  · split at h
    · split at h
      · injection h with hv
        subst hv
        exact hundred_one_sub_abs_le _
      · exact absurd h (by simp)
    · exact absurd h (by simp)
  · exact absurd h (by simp)

theorem numSims_val_le {rows : List RowData} {qnums rnums : List (Option ℚ)}
    {x : ℚ}
    (hx : x ∈ (numSims rows qnums rnums).filterMap SimRes.toVal) : x ≤ 100 := by
  rcases List.mem_filterMap.1 hx with ⟨s, hs, hsx⟩
  rw [numSims] at hs
  rcases List.mem_map.1 hs with ⟨p, hp, hps⟩
  cases s with
  | val v =>
    obtain rfl : v = x := by simpa [SimRes.toVal] using hsx
    exact fieldNumSim_val_le hps
  | skip => simp [SimRes.toVal] at hsx
  | nan => simp [SimRes.toVal] at hsx

theorem numScore_le_100 {mode : Mode} {rows : List RowData}
    {qnums rnums : List (Option ℚ)} {ns : ℚ}
    (h : numScore mode rows qnums rnums = some ns) : ns ≤ 100 := by
  simp only [numScore] at h
  split at h
  · obtain rfl := Option.some_inj.1 h
    norm_num
  · split at h
    · exact absurd h (by simp)
    · obtain rfl := Option.some_inj.1 h
      split
      · norm_num
      · exact mean_le (by norm_num) fun x hx => numSims_val_le hx

theorem textSims_bounds {tsim : String → String → ℚ}
    {qtexts rtexts : List (Option String)}
    (htsim : ∀ a b, 0 ≤ tsim a b ∧ tsim a b ≤ 100) :
    ∀ x ∈ textSims tsim qtexts rtexts, 0 ≤ x ∧ x ≤ 100 := by
  intro x hx
  rcases List.mem_filterMap.1 hx with ⟨p, hp, hpx⟩
  rcases p with ⟨qv, rv⟩
  cases qv with
  | none => simp at hpx
  | some qs =>
    cases rv with
    | none => simp at hpx
    | some rs =>
      obtain rfl : tsim qs rs = x := by simpa using hpx
      exact htsim qs rs

theorem rowScore_le_100 {cfg : SearchCfg} {mode : Mode} {t : Table} {q : Query}
    {r : RowData} {s : ℚ}
    (hw1 : 0 ≤ cfg.numericWeight) (hw2 : 0 ≤ cfg.stringWeight)
    (hsum : cfg.numericWeight + cfg.stringWeight ≤ 1)
    (htsim : ∀ a b, 0 ≤ cfg.tsim a b ∧ cfg.tsim a b ≤ 100)
    (h : rowScore cfg mode t q r = some s) : s ≤ 100 := by
  simp only [rowScore] at h
  split at h
  · exact absurd h (by simp)
  · cases hns : numScore mode t.rows q.qnums r.nums with
    | none => rw [hns] at h; exact absurd h (by simp)
    | some ns =>
      rw [hns] at h
      obtain rfl := Option.some_inj.1 h
      have h1 : ns ≤ 100 := numScore_le_100 hns
      have h2 : mean (textSims cfg.tsim q.qtexts r.texts) ≤ 100 :=
        mean_le (by norm_num) fun x hx => (textSims_bounds htsim x hx).2
      linarith [mul_le_mul_of_nonneg_left h1 hw1,
        mul_le_mul_of_nonneg_left h2 hw2]

theorem fieldNumSim_skip_of_const {rows : List RowData} {i : ℕ}
    (hconst : listMin (colVals rows i) = listMax (colVals rows i))
    (qv rv : Option ℚ) : fieldNumSim rows i qv rv = SimRes.skip := by
  rw [fieldNumSim, ← hconst]
  cases hmn : listMin (colVals rows i) with
  | none => rfl
  | some mn => simp

/-! Concrete evaluation of the search on `cfg30`/`tblOne`/`qOne`, shared by
several witnesses. -/

theorem eval30_filterRows : filterRows Mode.strict tblOne qOne =
    [(0, { nums := [], texts := [some "a"] })] := by
  simp [filterRows, tblOne, qOne, rowPassesFilter]

theorem eval30_rowScore : rowScore cfg30 Mode.strict tblOne qOne
    { nums := [], texts := [some "a"] } = some 30 := by
  simp [rowScore, textSims, numScore, mean, cfg30, tblOne, qOne, tsim100]
  norm_num

theorem eval30_qualifying : qualifying cfg30 Mode.strict tblOne qOne =
    [(0, 30)] := by
  rw [qualifying, eval30_filterRows]
  simp only [List.filterMap_cons, List.filterMap_nil, eval30_rowScore]
  norm_num [cfg30]

theorem eval30_search : searchWithMode cfg30 Mode.strict tblOne qOne =
    some [(0, 30)] := by
  rw [searchWithMode, if_neg (by rw [eval30_filterRows]; simp),
    if_neg (by rw [eval30_qualifying]; simp), eval30_qualifying]
  norm_num [cfg30, rankResults, pdStable, sortDesc, insertDesc]

theorem eval30_smart : smart_fuzzy_search cfg30 tblOne qOne = [(0, 30)] := by
  rw [smart_fuzzy_search, eval30_search]

/-! The claims. -/

/-- C1: the multi-pass matcher runs passes in the fixed order strict, relaxed,
none; a pass yields no result exactly when its filtered set is empty or no
row's score reaches the threshold; the first successful pass's results are
returned and later passes are never attempted; if all three passes exhaust,
the result is the empty list, not an error. -/
theorem C1_multipass_fallback (cfg : SearchCfg) (t : Table) (q : Query) :
    (∀ mode, searchWithMode cfg mode t q = none ↔
        filterRows mode t q = [] ∨ qualifying cfg mode t q = []) ∧
    (∀ r, searchWithMode cfg Mode.strict t q = some r →
        smart_fuzzy_search cfg t q = r) ∧
    (∀ r, searchWithMode cfg Mode.strict t q = none →
        searchWithMode cfg Mode.relaxed t q = some r →
        smart_fuzzy_search cfg t q = r) ∧
    (∀ r, searchWithMode cfg Mode.strict t q = none →
        searchWithMode cfg Mode.relaxed t q = none →
        searchWithMode cfg Mode.nofilter t q = some r →
        smart_fuzzy_search cfg t q = r) ∧
    (searchWithMode cfg Mode.strict t q = none →
        searchWithMode cfg Mode.relaxed t q = none →
        searchWithMode cfg Mode.nofilter t q = none →
        smart_fuzzy_search cfg t q = []) := by
  refine ⟨fun mode => searchWithMode_eq_none, ?_, ?_, ?_, ?_⟩
  · intro r h1
    rw [smart_fuzzy_search, h1]
  · intro r h1 h2
    rw [smart_fuzzy_search, h1, h2]
  · intro r h1 h2 h3
    rw [smart_fuzzy_search, h1, h2, h3]
  · intro h1 h2 h3
    rw [smart_fuzzy_search, h1, h2, h3]

/-- C1 witness: on a concrete instance the strict pass succeeds and its
results are returned, the looser passes never being consulted. -/
theorem C1_witness : smart_fuzzy_search cfg30 tblOne qOne = [(0, 30)] :=
  (C1_multipass_fallback cfg30 tblOne qOne).2.1 [(0, 30)] eval30_search

/-- C2: under every pass mode, the Candidate Filter keeps exactly the rows of
the table that satisfy, for every numeric column with a non-null query value,
the inclusive tolerance band of the spec (strict int [q-1,q+1], strict real
[0.9q,1.1q], relaxed int [q-2,q+2], relaxed real [0.75q,1.25q], none
unconstrained), ANDed across columns. -/
theorem C2_candidate_filter_bands (mode : Mode) (t : Table) (q : Query)
    (p : ℕ × RowData) :
    p ∈ filterRows mode t q ↔
      (p ∈ t.rows.enum ∧
        ∀ c ∈ t.kinds.zip (q.qnums.zip p.2.nums),
          CellSpec mode c.1 c.2.1 c.2.2) := by
  rw [filterRows, List.mem_filter]
  constructor
  · rintro ⟨h1, h2⟩
    replace h2 : rowPassesFilter mode t.kinds q.qnums p.2.nums = true := h2
    rw [rowPassesFilter, List.all_eq_true] at h2
    exact ⟨h1, fun c hc => (cellPasses_iff_CellSpec _ _ _ _).1 (h2 c hc)⟩
  · rintro ⟨h1, h2⟩
    refine ⟨h1, ?_⟩
    show rowPassesFilter mode t.kinds q.qnums p.2.nums = true
    rw [rowPassesFilter, List.all_eq_true]
    exact fun c hc => (cellPasses_iff_CellSpec _ _ _ _).2 (h2 c hc)

/-- C2 witness: the single row of `tbl8` survives the strict filter, hence
sits in the table and satisfies every spec band. -/
theorem C2_witness : (0, row8) ∈ tbl8.rows.enum ∧
    ∀ c ∈ tbl8.kinds.zip (q8.qnums.zip row8.nums),
      CellSpec Mode.strict c.1 c.2.1 c.2.2 :=
  (C2_candidate_filter_bands Mode.strict tbl8 q8 (0, row8)).1 (by
    rw [mem_filterRows]
    constructor
    · rfl
    · simp [rowPassesFilter, tbl8, q8, row8, cellPasses, inBand]
      norm_num)

/-- C3 counterexample: the final `sort_values` (pandas default quicksort) is
non-stable beyond numpy's 16-element insertion-sort regime, so the claimed
stable tie-breaking fails as soon as 17 tied rows are returned.  With limit
17, seventeen rows all scoring 30, and a conforming realisation of the sort
contract that permutes ties above that size, the matcher returns the tied
rows in reversed table order. -/
theorem C3_counterexample :
    smart_fuzzy_search cfgShuffle tbl17 qOne =
      [(16, (30 : ℚ)),
      (15, 30),
      (14, 30),
      (13, 30),
      (12, 30),
      (11, 30),
      (10, 30),
      (9, 30),
      (8, 30),
      (7, 30),
      (6, 30),
      (5, 30),
      (4, 30),
      (3, 30),
      (2, 30),
      (1, 30),
      (0, 30)] ∧
    ¬ (smart_fuzzy_search cfgShuffle tbl17 qOne).Pairwise Ranked := by
  have hsc : rowScore cfgShuffle Mode.strict tbl17 qOne rowOne = some 30 := by
    simp [rowScore, textSims, numScore, mean, cfgShuffle, qOne, tsim100,
      rowOne]
    norm_num
  have hfr : filterRows Mode.strict tbl17 qOne =
      [(0, rowOne),
      (1, rowOne),
      (2, rowOne),
      (3, rowOne),
      (4, rowOne),
      (5, rowOne),
      (6, rowOne),
      (7, rowOne),
      (8, rowOne),
      (9, rowOne),
      (10, rowOne),
      (11, rowOne),
      (12, rowOne),
      (13, rowOne),
      (14, rowOne),
      (15, rowOne),
      (16, rowOne)] := by
    simp [filterRows, tbl17, qOne, rowPassesFilter, List.enum, List.enumFrom]
  have hq : qualifying cfgShuffle Mode.strict tbl17 qOne =
      [(0, 30),
      (1, 30),
      (2, 30),
      (3, 30),
      (4, 30),
      (5, 30),
      (6, 30),
      (7, 30),
      (8, 30),
      (9, 30),
      (10, 30),
      (11, 30),
      (12, 30),
      (13, 30),
      (14, 30),
      (15, 30),
      (16, 30)] := by
    rw [qualifying, hfr]
    simp only [List.filterMap_cons, List.filterMap_nil, hsc]
    norm_num [cfgShuffle]
  have hsort : sortDesc [(0, (30 : ℚ)),
      (1, 30),
      (2, 30),
      (3, 30),
      (4, 30),
      (5, 30),
      (6, 30),
      (7, 30),
      (8, 30),
      (9, 30),
      (10, 30),
      (11, 30),
      (12, 30),
      (13, 30),
      (14, 30),
      (15, 30),
      (16, 30)] =
      [(0, 30),
      (1, 30),
      (2, 30),
      (3, 30),
      (4, 30),
      (5, 30),
      (6, 30),
      (7, 30),
      (8, 30),
      (9, 30),
      (10, 30),
      (11, 30),
      (12, 30),
      (13, 30),
      (14, 30),
      (15, 30),
      (16, 30)] := by
    simp [sortDesc, insertDesc]
  have hanti : sortDescAnti [(0, (30 : ℚ)),
      (1, 30),
      (2, 30),
      (3, 30),
      (4, 30),
      (5, 30),
      (6, 30),
      (7, 30),
      (8, 30),
      (9, 30),
      (10, 30),
      (11, 30),
      (12, 30),
      (13, 30),
      (14, 30),
      (15, 30),
      (16, 30)] =
      [(16, 30),
      (15, 30),
      (14, 30),
      (13, 30),
      (12, 30),
      (11, 30),
      (10, 30),
      (9, 30),
      (8, 30),
      (7, 30),
      (6, 30),
      (5, 30),
      (4, 30),
      (3, 30),
      (2, 30),
      (1, 30),
      (0, 30)] := by
    simp [sortDescAnti, insertDescAnti]
  have hrank : rankResults cfgShuffle
      (qualifying cfgShuffle Mode.strict tbl17 qOne) =
      [(16, 30),
      (15, 30),
      (14, 30),
      (13, 30),
      (12, 30),
      (11, 30),
      (10, 30),
      (9, 30),
      (8, 30),
      (7, 30),
      (6, 30),
      (5, 30),
      (4, 30),
      (3, 30),
      (2, 30),
      (1, 30),
      (0, 30)] := by
    rw [rankResults, hq, hsort,
      List.take_of_length_le (by norm_num [cfgShuffle])]
    show cfgShuffle.pdsort.1 _ = _
    simp only [cfgShuffle, pdShuffle]
    rw [if_neg (by norm_num)]
    exact hanti
  have hs : searchWithMode cfgShuffle Mode.strict tbl17 qOne =
      some [(16, 30),
      (15, 30),
      (14, 30),
      (13, 30),
      (12, 30),
      (11, 30),
      (10, 30),
      (9, 30),
      (8, 30),
      (7, 30),
      (6, 30),
      (5, 30),
      (4, 30),
      (3, 30),
      (2, 30),
      (1, 30),
      (0, 30)] := by
    rw [searchWithMode, if_neg (by rw [hfr]; simp),
      if_neg (by rw [hq]; simp), hrank]
  have hsmart : smart_fuzzy_search cfgShuffle tbl17 qOne =
      [(16, 30),
      (15, 30),
      (14, 30),
      (13, 30),
      (12, 30),
      (11, 30),
      (10, 30),
      (9, 30),
      (8, 30),
      (7, 30),
      (6, 30),
      (5, 30),
      (4, 30),
      (3, 30),
      (2, 30),
      (1, 30),
      (0, 30)] := by
    rw [smart_fuzzy_search, hs]
  refine ⟨hsmart, ?_⟩
  rw [hsmart]
  intro hp
  have h1 := (List.pairwise_cons.1 hp).1 (15, 30) (List.mem_cons_self _ _)
  have h2 : (16 : ℕ) < 15 := h1.2 rfl
  omega

/-- C3 amended: the matcher returns at most `limit` results sorted by
combined score descending; rows with equal scores appear in their original
table order whenever at most 16 results are returned — in particular always
under the matcher's default `limit=10` and the pipeline's `limit=5`, where
the final quicksort stays in its stable insertion-sort regime — while beyond
16 results the non-stable `sort_values` gives no tie-order guarantee. -/
theorem C3_amended_ranked_output (cfg : SearchCfg) (t : Table) (q : Query) :
    (smart_fuzzy_search cfg t q).length ≤ cfg.limit ∧
    ((smart_fuzzy_search cfg t q).Pairwise fun a b => b.2 ≤ a.2) ∧
    ((smart_fuzzy_search cfg t q).length ≤ 16 →
      (smart_fuzzy_search cfg t q).Pairwise Ranked) := by
  rcases smart_fuzzy_search_cases cfg t q with he | ⟨mode, hm⟩
  · rw [he]
    exact ⟨Nat.zero_le _, List.Pairwise.nil, fun _ => List.Pairwise.nil⟩
  · rw [hm]
    exact ⟨rankResults_length_le, rankResults_sorted cfg _, fun h16 =>
      rankResults_stable_small h16 (pairwise_fst_qualifying cfg mode t q)⟩

/-- C3 witness: a concrete search returning one result is inside the stable
regime, so its output is ranked with table-order ties. -/
theorem C3_witness : (smart_fuzzy_search cfg30 tblOne qOne).Pairwise Ranked :=
  (C3_amended_ranked_output cfg30 tblOne qOne).2.2
    (by rw [eval30_smart]; norm_num)

/-- C8: the candidate set only widens (or stays equal) as the pass mode
loosens from strict to relaxed to none. -/
theorem C8_monotone_candidates (t : Table) (q : Query) (p : ℕ × RowData) :
    (p ∈ filterRows Mode.strict t q → p ∈ filterRows Mode.relaxed t q) ∧
    (p ∈ filterRows Mode.relaxed t q → p ∈ filterRows Mode.nofilter t q) := by
  constructor
  · intro h
    rcases mem_filterRows.1 h with ⟨h1, h2⟩
    exact mem_filterRows.2 ⟨h1, rowPassesFilter_mono_sr h2⟩
  · intro h
    rcases mem_filterRows.1 h with ⟨h1, h2⟩
    exact mem_filterRows.2 ⟨h1, rowPassesFilter_nofilter _ _ _⟩

/-- C8 witness: a row surviving the strict filter also survives the relaxed
one, on a concrete instance. -/
theorem C8_witness : (0, row8) ∈ filterRows Mode.relaxed tbl8 q8 :=
  (C8_monotone_candidates tbl8 q8 (0, row8)).1 (by
    rw [mem_filterRows]
    constructor
    · rfl
    · simp [rowPassesFilter, tbl8, q8, row8, cellPasses, inBand]
      norm_num)

/-- C10: a query containing no text-typed searchable field yields the empty
result set: every row lacks text evidence in every pass. -/
theorem C10_no_text_query_empty (cfg : SearchCfg) (t : Table) (q : Query)
    (h : q.qtexts = []) : smart_fuzzy_search cfg t q = [] := by
  have hrow : ∀ (mode : Mode) (r : RowData),
      rowScore cfg mode t q r = none := by
    intro mode r
    have ht : textSims cfg.tsim q.qtexts r.texts = [] := by
      rw [h, textSims]
      simp
    simp only [rowScore, ht, if_pos]
  have hq : ∀ mode : Mode, qualifying cfg mode t q = [] := by
    intro mode
    rw [qualifying, List.filterMap_eq_nil_iff]
    intro p hp
    rw [hrow mode p.2]
  have hs : ∀ mode : Mode, searchWithMode cfg mode t q = none := fun mode =>
    searchWithMode_eq_none.2 (Or.inr (hq mode))
  rw [smart_fuzzy_search, hs Mode.strict, hs Mode.relaxed, hs Mode.nofilter]

/-- C10 witness: concrete query with a numeric column only. -/
theorem C10_witness :
    smart_fuzzy_search cfg30 tbl8 { qnums := [some 3], qtexts := [] } = [] :=
  C10_no_text_query_empty cfg30 tbl8 _ rfl

/-- C5 counterexample: for a real-valued column with negative query value the
strict band `[q*0.9, q*1.1]` is empty, so a row value exactly equal to the
query value fails the filter — the claimed idempotence is false as stated. -/
theorem C5_counterexample :
    cellPasses Mode.strict false (some (-1)) (some (-1)) = false := by
  have h : ¬ ((-1 : ℚ) * (9/10) ≤ -1 ∧ (-1 : ℚ) ≤ (-1) * (11/10)) := by
    norm_num
  show inBand Mode.strict false (-1) (-1) = false
  simp only [inBand, if_neg Bool.false_ne_true, Bool.false_eq_true, if_false,
    decide_eq_false_iff_not]
  exact h

/-- C5 amended: a query value exactly equal to a table value satisfies the
band under all three modes provided the column is integer-kind or the query
value is nonnegative. -/
theorem C5_amended_equal_in_band (mode : Mode) (isInt : Bool) (q : ℚ)
    (h : isInt = true ∨ 0 ≤ q) :
    cellPasses mode isInt (some q) (some q) = true := by
  cases mode with
  | nofilter => rfl
  | strict =>
    show inBand Mode.strict isInt q q = true
    cases isInt with
    | false =>
      rcases h with h1 | hq
      · exact absurd h1 (by simp)
      · simp only [inBand, Bool.false_eq_true, if_false, decide_eq_true_eq]
        constructor <;> linarith
    | true =>
      simp only [inBand, if_true, decide_eq_true_eq]
      constructor <;> linarith
  | relaxed =>
    show inBand Mode.relaxed isInt q q = true
    cases isInt with
    | false =>
      rcases h with h1 | hq
      · exact absurd h1 (by simp)
      · simp only [inBand, Bool.false_eq_true, if_false, decide_eq_true_eq]
        constructor <;> linarith
    | true =>
      simp only [inBand, if_true, decide_eq_true_eq]
      constructor <;> linarith

/-- C5 witness: equality at the nonnegative real value 5 passes the strict
band. -/
theorem C5_witness : cellPasses Mode.strict false (some 5) (some 5) = true :=
  C5_amended_equal_in_band Mode.strict false 5 (Or.inr (by norm_num))

/-- C7: a numeric column whose table-wide minimum equals its maximum is
skipped by the scorer (the division-by-zero branch is unreachable), and when
no numeric column has a defined non-zero range the numeric score is 0 for
every row — never an error. -/
theorem C7_degenerate_column_skipped (rows : List RowData) (mode : Mode)
    (qnums rnums : List (Option ℚ)) :
    (∀ (i : ℕ) (qv rv : Option ℚ),
      listMin (colVals rows i) = listMax (colVals rows i) →
        fieldNumSim rows i qv rv = SimRes.skip) ∧
    ((∀ j, listMin (colVals rows j) = listMax (colVals rows j)) →
      numScore mode rows qnums rnums = some 0) := by
  constructor
  · intro i qv rv hconst
    exact fieldNumSim_skip_of_const hconst qv rv
  · intro hdeg
    have hall : ∀ s ∈ numSims rows qnums rnums, s = SimRes.skip := by
      intro s hs
      rw [numSims] at hs
      rcases List.mem_map.1 hs with ⟨p, _, hps⟩
      rw [← hps]
      exact fieldNumSim_skip_of_const (hdeg p.1) p.2.1 p.2.2
    simp only [numScore]
    by_cases hm : mode = Mode.nofilter ∨ qnums = []
    · rw [if_pos hm]
    · rw [if_neg hm]
      have hnan : (numSims rows qnums rnums).any SimRes.isNan = false := by
        rw [List.any_eq_false]
        intro s hs
        rw [hall s hs]
        simp [SimRes.isNan]
      have hvals : (numSims rows qnums rnums).filterMap SimRes.toVal = [] := by
        rw [List.filterMap_eq_nil_iff]
        intro s hs
        rw [hall s hs]
        rfl
      simp [hnan, hvals]

/-- C7 witness: on the two-row table whose single column is constantly 5,
the column is skipped and the numeric score is 0. -/
theorem C7_witness :
    fieldNumSim rows7 0 (some 4) (some 5) = SimRes.skip ∧
      numScore Mode.strict rows7 [some 4] [some 5] = some 0 := by
  have hc := C7_degenerate_column_skipped rows7 Mode.strict [some 4] [some 5]
  have hdeg : ∀ j, listMin (colVals rows7 j) = listMax (colVals rows7 j) := by
    intro j
    cases j with
    | zero => simp [colVals, rows7, listMin, listMax]
    | succ n => simp [colVals, rows7, listMin, listMax]
  exact ⟨hc.1 0 (some 4) (some 5) (hdeg 0), hc.2 hdeg⟩

/-- C4: a row with no usable text field (no overlap of non-null text fields
with the query) is excluded from the results of every pass, regardless of
numeric closeness. -/
theorem C4_no_text_row_excluded (cfg : SearchCfg) (t : Table) (q : Query)
    (i : ℕ) (r : RowData) (hr : t.rows[i]? = some r)
    (hno : textSims cfg.tsim q.qtexts r.texts = []) :
    ∀ s : ℚ, (i, s) ∉ smart_fuzzy_search cfg t q := by
  intro s hmem
  rcases mem_smart_fuzzy_search hmem with ⟨mode, r2, hfr, hsc, _⟩
  have hfr2 : (i, r2) ∈ filterRows mode t q := hfr
  rcases mem_filterRows.1 hfr2 with ⟨hr2, _⟩
  have hr2i : t.rows[i]? = some r2 := hr2
  rw [hr] at hr2i
  have hrr : r2 = r := (Option.some_inj.1 hr2i).symm
  rw [hrr] at hsc
  have hsc2 : rowScore cfg mode t q r = some s := hsc
  simp only [rowScore, hno, reduceIte] at hsc2
  exact Option.noConfusion hsc2

/-- C4 witness: the row with a null text cell never appears, whatever its
numeric data. -/
theorem C4_witness :
    ((0 : ℕ), (0 : ℚ)) ∉ smart_fuzzy_search cfg30 tblNull qOne :=
  C4_no_text_row_excluded cfg30 tblNull qOne 0
    { nums := [], texts := [none] } rfl rfl 0

/-- C6 counterexample: the claim quantifies over every threshold and weights,
but a string weight above 1 lets a returned score exceed 100, and a negative
threshold lets a row whose normalised query value falls outside [0,1] be
returned with a negative score. -/
theorem C6_counterexample :
    (smart_fuzzy_search cfgHeavy tblOne qOne = [(0, 200)] ∧
      ¬ ((200 : ℚ) ≤ 100)) ∧
    (smart_fuzzy_search cfgNeg tblNeg qNeg = [(0, -600)] ∧
      ¬ ((0 : ℚ) ≤ -600)) := by
  refine ⟨⟨?_, by norm_num⟩, ⟨?_, by norm_num⟩⟩
  · have hfr : filterRows Mode.strict tblOne qOne =
        [(0, { nums := [], texts := [some "a"] })] := by
      simp [filterRows, tblOne, qOne, rowPassesFilter]
    have hsc : rowScore cfgHeavy Mode.strict tblOne qOne
        { nums := [], texts := [some "a"] } = some 200 := by
      simp [rowScore, textSims, numScore, mean, cfgHeavy, tblOne, qOne, tsim100]
      norm_num
    have hq : qualifying cfgHeavy Mode.strict tblOne qOne = [(0, 200)] := by
      rw [qualifying, hfr]
      simp only [List.filterMap_cons, List.filterMap_nil, hsc]
      norm_num [cfgHeavy]
    have hs : searchWithMode cfgHeavy Mode.strict tblOne qOne =
        some [(0, 200)] := by
      rw [searchWithMode, if_neg (by rw [hfr]; simp), if_neg (by rw [hq]; simp),
        hq]
      norm_num [cfgHeavy, rankResults, pdStable, sortDesc, insertDesc]
    rw [smart_fuzzy_search, hs]
  · have hfr : filterRows Mode.strict tblNeg qNeg =
        [(0, { nums := [some 110], texts := [some "a"] })] := by
      rw [filterRows]
      norm_num [tblNeg, qNeg, rowPassesFilter, cellPasses, inBand,
        List.enum, List.enumFrom, List.filter_cons]
    have hcol : colVals tblNeg.rows 0 = [110, 111] := by
      simp [colVals, tblNeg]
    have hmin : listMin (colVals tblNeg.rows 0) = some 110 := by
      rw [hcol]; norm_num [listMin]
    have hmax : listMax (colVals tblNeg.rows 0) = some 111 := by
      rw [hcol]; norm_num [listMax]
    have hsim : fieldNumSim tblNeg.rows 0 (some 100) (some 110) =
        SimRes.val (-900) := by
      rw [fieldNumSim, hmin, hmax]
      norm_num
    have hns : numSims tblNeg.rows qNeg.qnums [some 110] =
        [fieldNumSim tblNeg.rows 0 (some 100) (some 110)] := by
      simp [numSims, qNeg]
    have hnum : numScore Mode.strict tblNeg.rows qNeg.qnums [some 110] =
        some (-900) := by
      simp only [numScore, hns, hsim]
      rw [if_neg (by simp [qNeg] :
        ¬ (Mode.strict = Mode.nofilter ∨ qNeg.qnums = []))]
      simp [SimRes.isNan, SimRes.toVal, mean]
    have htx : textSims cfgNeg.tsim qNeg.qtexts [some "a"] = [100] := by
      simp [textSims, qNeg, cfgNeg, tsim100]
    have hsc : rowScore cfgNeg Mode.strict tblNeg qNeg
        { nums := [some 110], texts := [some "a"] } = some (-600) := by
      simp only [rowScore, htx, hnum]
      simp [mean, cfgNeg]
      norm_num
    have hq : qualifying cfgNeg Mode.strict tblNeg qNeg = [(0, -600)] := by
      rw [qualifying, hfr]
      simp only [List.filterMap_cons, List.filterMap_nil, hsc]
      norm_num [cfgNeg]
    have hs : searchWithMode cfgNeg Mode.strict tblNeg qNeg =
        some [(0, -600)] := by
      rw [searchWithMode, if_neg (by rw [hfr]; simp), if_neg (by rw [hq]; simp),
        hq]
      norm_num [cfgNeg, rankResults, pdStable, sortDesc, insertDesc]
    rw [smart_fuzzy_search, hs]

/-- C6 amended: when the weights are nonnegative with sum at most 1 and the
threshold is nonnegative (as the defaults 0.7/0.3/70 are), every returned
score lies in [0,100]; the text scorer's documented range [0,100] is
assumed. -/
theorem C6_amended_score_in_range (cfg : SearchCfg) (t : Table) (q : Query)
    (hw1 : 0 ≤ cfg.numericWeight) (hw2 : 0 ≤ cfg.stringWeight)
    (hsum : cfg.numericWeight + cfg.stringWeight ≤ 1)
    (hth : 0 ≤ cfg.threshold)
    (htsim : ∀ a b, 0 ≤ cfg.tsim a b ∧ cfg.tsim a b ≤ 100) :
    ∀ x ∈ smart_fuzzy_search cfg t q, 0 ≤ x.2 ∧ x.2 ≤ 100 := by
  intro x hx
  rcases mem_smart_fuzzy_search hx with ⟨mode, r, _, hsc, hts⟩
  exact ⟨le_trans hth hts, rowScore_le_100 hw1 hw2 hsum htsim hsc⟩

/-- C6 witness: the concrete returned score 30 lies in [0,100]. -/
theorem C6_witness : 0 ≤ (30 : ℚ) ∧ (30 : ℚ) ≤ 100 :=
  C6_amended_score_in_range cfg30 tblOne qOne
    (by norm_num [cfg30]) (by norm_num [cfg30]) (by norm_num [cfg30])
    (by norm_num [cfg30]) (fun a b => by norm_num [cfg30, tsim100])
    (0, 30) (by rw [eval30_smart]; exact List.mem_singleton.2 rfl)

/-- C9 counterexample: a missing characteristics file and a search that finds
no qualifying match both make `run_full_analysis` return `None` — the caller
cannot tell the two conditions apart from the returned result (they differ
only in printed log text). -/
theorem C9_counterexample :
    run_full_analysis cfg30 cont9 none (some ts9) qOne = none ∧
    smart_fuzzy_search { cfg30 with threshold := 60, limit := 5 }
      tblEmpty qOne = [] ∧
    run_full_analysis cfg30 cont9 (some (tblEmpty, [])) (some ts9) qOne =
      none := by
  refine ⟨rfl, rfl, rfl⟩

/-- C9 amended: both a data-availability failure (either required file
absent) and the no-qualifying-match outcome yield the identical
caller-visible value `None` from `run_full_analysis`; the conditions are not
distinguishable from the returned result or a raised error. -/
theorem C9_amended_both_none (cfg : SearchCfg)
    (cont : List (ℤ × ℚ) → List (ℕ × ℤ × ℚ)) (df : Table) (ids : List ℕ)
    (tsF : Option (List TSRow)) (q : Query)
    (hnm : smart_fuzzy_search { cfg with threshold := 60, limit := 5 } df q
      = []) :
    run_full_analysis cfg cont none tsF q = none ∧
    run_full_analysis cfg cont (some (df, ids)) tsF q = none := by
  constructor
  · cases tsF with
    | none => rfl
    | some ts => rfl
  · cases tsF with
    | none => rfl
    | some ts =>
      simp only [run_full_analysis]
      rw [if_pos hnm]

/-- C9 witness: the amended statement at a concrete environment. -/
theorem C9_witness :
    run_full_analysis cfg30 cont9 none (some ts9) qOne = none ∧
    run_full_analysis cfg30 cont9 (some (tblEmpty, [])) (some ts9) qOne =
      none :=
  C9_amended_both_none cfg30 cont9 tblEmpty [] (some ts9) qOne rfl

end EcoForecast
